import Mathlib

/-!
Verification development for the cyclic keyframe interpolation and trail
management core of the directional-light-angle visualization repository.

Scalars of the timeline, trail and clock components are modelled over an
arbitrary linear ordered field (exact arithmetic in place of IEEE floats);
witnesses instantiate them at the rationals.  The trigonometric components
(spherical interpolation, torus projection) are modelled over the reals.
-/

namespace LightAngle

/-- Keyframe direction sample of the source: unit-vector components together
with a cyclic time stamp (the `LightDirection` record). -/
structure LightDirection (α : Type) where
  x : α
  y : α
  z : α
  time : α
deriving DecidableEq

/-- Result record of `getCurrentKeyframes`: the bracketing keyframes and the
local interpolation parameter. -/
structure KeyframeBracket (α : Type) where
  prev : LightDirection α
  next : LightDirection α
  t : α
deriving DecidableEq

section TimelineTrail

variable {α : Type} [LinearOrderedField α]

/-- Local-parameter computation of `getCurrentKeyframes`
(`visualization-sphere.ts` lines 680-688): the span (`timeBetween`) wraps when
`next.time - prev.time <= 0`, and the numerator is adjusted by a full cycle
when the query time lies below `prev.time` on the wrap segment. -/
def codeLocalT (prevT nextT cycleTime cycleDuration : α) : α :=
  let timeBetween :=
    if nextT - prevT ≤ 0 then cycleDuration - prevT + nextT else nextT - prevT
  if prevT < nextT then
    if timeBetween = 0 then 0 else (cycleTime - prevT) / timeBetween
  else
    let adjustedTime :=
      if prevT ≤ cycleTime then cycleTime - prevT else cycleDuration - prevT + cycleTime
    if timeBetween = 0 then 0 else adjustedTime / timeBetween

/-- Shallow embedding of `getCurrentKeyframes` (`visualization-sphere.ts`
lines 668-691).  The JS `findIndex` result `-1` is modelled by `List.findIdx`
returning the list length; the array reads (in range on nonempty data) are
modelled with `List.getD` and a dummy keyframe. -/
def getCurrentKeyframes (demoData : List (LightDirection α))
    (cycleTime cycleDuration : α) : KeyframeBracket α :=
  let i := demoData.findIdx fun d => decide (cycleTime < d.time)
  let nextIndex := if i = demoData.length then 0 else i
  let prevIndex := if nextIndex = 0 then demoData.length - 1 else nextIndex - 1
  let prev := demoData.getD prevIndex ⟨0, 0, 0, 0⟩
  let next := demoData.getD nextIndex ⟨0, 0, 0, 0⟩
  ⟨prev, next, codeLocalT prev.time next.time cycleTime cycleDuration⟩

/-- Spec-side notion: the span between the bracketing keyframes, as the claim
words it (the positive difference, otherwise the wrap-around span). -/
def claimSpan (prevT nextT cycleDuration : α) : α :=
  if 0 < nextT - prevT then nextT - prevT else cycleDuration - prevT + nextT

/-- Spec-side notion: the wrap-adjusted numerator for the local parameter. -/
def claimAdjusted (prevT cycleTime cycleDuration : α) : α :=
  if prevT ≤ cycleTime then cycleTime - prevT else cycleDuration - prevT + cycleTime

/-- Spec-side notion: the local parameter with the wrap-adjusted numerator
(the amended claim), zero on a degenerate span. -/
def claimLocalT (prevT nextT cycleTime cycleDuration : α) : α :=
  if claimSpan prevT nextT cycleDuration = 0 then 0
  else claimAdjusted prevT cycleTime cycleDuration / claimSpan prevT nextT cycleDuration

/-- Spec-side notion: the local parameter exactly as the claim states it, with
the plain numerator `t - prev.time` in all cases. -/
def claimLocalTOrig (prevT nextT cycleTime cycleDuration : α) : α :=
  if claimSpan prevT nextT cycleDuration = 0 then 0
  else (cycleTime - prevT) / claimSpan prevT nextT cycleDuration

/-- Spec-side notion: bracketing under cyclic ordering, with the interval
wrapping around the cycle end when the upper endpoint does not exceed the
lower one. -/
def cyclicBetween (lo t hi : α) : Prop :=
  if lo < hi then lo ≤ t ∧ t < hi else lo ≤ t ∨ t < hi

/-- Trail history entry: a rendered position plus the wall-clock time stamp at
which it was pushed. -/
structure TrailPoint (α : Type) where
  position : α × α × α
  timestamp : α
deriving DecidableEq

/-- Age-based trail eviction, the while loop of the render tick
(`visualization-sphere.ts` lines 487-489): shift points from the head while
the head is older than the fade window. -/
def ageEvict (nowMs trailFadeTime : α) : List (TrailPoint α) → List (TrailPoint α)
  | [] => []
  | p :: rest =>
    if trailFadeTime < nowMs - p.timestamp then ageEvict nowMs trailFadeTime rest
    else p :: rest

/-- Capacity-based trail eviction (`visualization-sphere.ts` lines 490-492):
a single head shift when the length exceeds the capacity. -/
def capacityEvict (maxTrailPoints : ℕ) (points : List (TrailPoint α)) :
    List (TrailPoint α) :=
  if maxTrailPoints < points.length then points.tail else points

/-- Per-tick eviction pass: the age-based while loop followed by the
capacity check, as executed by the render tick. -/
def evictPass (nowMs trailFadeTime : α) (maxTrailPoints : ℕ)
    (points : List (TrailPoint α)) : List (TrailPoint α) :=
  capacityEvict maxTrailPoints (ageEvict nowMs trailFadeTime points)

/-- One trail update of the render tick (`visualization-sphere.ts` lines
482-492): push the new position with the current time stamp, then run the
eviction pass. -/
def trailTick (points : List (TrailPoint α)) (position : α × α × α)
    (nowMs trailFadeTime : α) (maxTrailPoints : ℕ) : List (TrailPoint α) :=
  evictPass nowMs trailFadeTime maxTrailPoints (points ++ [⟨position, nowMs⟩])

/-- Animation clock state of a visualization controller
(`visualization-sphere.ts` lines 413-433): the running flag, the recorded
pause offset and the adjustable start time. -/
structure ClockState (α : Type) where
  isRunning : Bool
  pauseOffset : α
  startTime : α
deriving DecidableEq

/-- Controller `pause`: when running, record `pauseOffset = now - startTime`
and halt. -/
def pause (s : ClockState α) (now : α) : ClockState α :=
  if s.isRunning then ⟨false, now - s.startTime, s.startTime⟩ else s

/-- Controller `resume`: when halted, recompute `startTime = now - pauseOffset`
and run again. -/
def resume (s : ClockState α) (now : α) : ClockState α :=
  if s.isRunning then s else ⟨true, s.pauseOffset, now - s.pauseOffset⟩

/-- Truncated integer part, the rounding used by the JS `%` operator. -/
def jsTrunc [FloorRing α] (x : α) : ℤ :=
  if 0 ≤ x then ⌊x⌋ else ⌈x⌉

/-- Remainder with the sign convention of the JS `%` operator. -/
def jsMod [FloorRing α] (a n : α) : α :=
  a - n * ((jsTrunc (a / n) : ℤ) : α)

/-- Elapsed scaled seconds computed at the head of the render tick
(`visualization-sphere.ts` line 467). -/
def elapsedSeconds (s : ClockState α) (now animationSpeed : α) : α :=
  (now - s.startTime) / 1000 * animationSpeed

/-- Cyclic clock position computed by the render tick
(`visualization-sphere.ts` line 468). -/
def cycleTimeOf [FloorRing α] (s : ClockState α)
    (now animationSpeed cycleDuration : α) : α :=
  if cycleDuration = 0 then 0
  else jsMod (elapsedSeconds s now animationSpeed) cycleDuration

end TimelineTrail

/-- Plain 3-vector over the reals, the `Vector3` record of the source. -/
@[ext]
structure Vector3 where
  x : ℝ
  y : ℝ
  z : ℝ

/-- Angle pair of the raw data: a vertical and a horizontal angle in
radians. -/
structure RadDirection where
  vertical : ℝ
  horizontal : ℝ

/-- Time-stamped angle pair, the `RadPoint` record of the source. -/
structure RadPoint where
  timestamp : ℝ
  direction : RadDirection

/-- Conversion from an angle pair to a direction vector, `rad2Point` of
`direction-data.ts` lines 25-30. -/
noncomputable def rad2Point (direction : RadDirection) : Vector3 :=
  ⟨Real.cos direction.vertical * -Real.sin direction.horizontal,
   -Real.sin direction.vertical,
   Real.cos direction.vertical * Real.cos direction.horizontal⟩

/-- Spherical interpolation between two keyframe directions,
`interpolateDirection` of `direction-data.ts` lines 138-159: clamp the dot
product, take the angle, and either blend linearly (angle below the epsilon
0.001) or combine with the slerp weights. -/
noncomputable def interpolateDirection (dir1 dir2 : LightDirection ℝ) (t : ℝ) :
    Vector3 :=
  let dot := dir1.x * dir2.x + dir1.y * dir2.y + dir1.z * dir2.z
  let theta := Real.arccos (max (-1) (min 1 dot))
  if theta < 0.001 then
    ⟨dir1.x + (dir2.x - dir1.x) * t,
     dir1.y + (dir2.y - dir1.y) * t,
     dir1.z + (dir2.z - dir1.z) * t⟩
  else
    let sinTheta := Real.sin theta
    let w1 := Real.sin ((1 - t) * theta) / sinTheta
    let w2 := Real.sin (t * theta) / sinTheta
    ⟨w1 * dir1.x + w2 * dir2.x,
     w1 * dir1.y + w2 * dir2.y,
     w1 * dir1.z + w2 * dir2.z⟩

/-- Loop body of `geometricSpheralLerp` (`direction-data.ts` lines 39-59) at a
single loop value `t`: the blended (or slerped) vector is normalized and
stamped with `t`. -/
noncomputable def spheralLerpSample (start finish : RadPoint) (t : ℝ) :
    LightDirection ℝ :=
  let startVec := rad2Point start.direction
  let endVec := rad2Point finish.direction
  let dot := startVec.x * endVec.x + startVec.y * endVec.y + startVec.z * endVec.z
  let theta := Real.arccos (max (-1) (min 1 dot))
  let sinTheta := Real.sin theta
  let progress := (t - start.timestamp) / (finish.timestamp - start.timestamp)
  let v : Vector3 :=
    if theta < 0.001 ∨ finish.timestamp = start.timestamp then
      ⟨startVec.x + (endVec.x - startVec.x) * progress,
       startVec.y + (endVec.y - startVec.y) * progress,
       startVec.z + (endVec.z - startVec.z) * progress⟩
    else
      ⟨Real.sin ((1 - progress) * theta) / sinTheta * startVec.x +
        Real.sin (progress * theta) / sinTheta * endVec.x,
       Real.sin ((1 - progress) * theta) / sinTheta * startVec.y +
        Real.sin (progress * theta) / sinTheta * endVec.y,
       Real.sin ((1 - progress) * theta) / sinTheta * startVec.z +
        Real.sin (progress * theta) / sinTheta * endVec.z⟩
  let length := Real.sqrt (v.x * v.x + v.y * v.y + v.z * v.z)
  ⟨v.x / length, v.y / length, v.z / length, t⟩

/-- Offline dense-path generator `geometricSpheralLerp` of `direction-data.ts`
lines 32-62.  The JS loop `for (t = start; t <= end; t += 0.01)` is modelled
by its iteration count: the samples sit at `start + k / 100` for
`k = 0, ..., floor((end - start) * 100)` (and the loop runs zero times when
the end lies before the start). -/
noncomputable def geometricSpheralLerp (start finish : RadPoint) :
    List (LightDirection ℝ) :=
  let n : ℕ :=
    if start.timestamp ≤ finish.timestamp then
      (⌊(finish.timestamp - start.timestamp) * 100⌋).toNat + 1
    else 0
  (List.range n).map fun k => spheralLerpSample start finish (start.timestamp + (k : ℝ) / 100)

/-- Segment construction `generateSegmentData` of `direction-data.ts` lines
64-101.  The loosely-typed time mapping is modelled as its key-sorted
association list (time, vertical, horizontal), with keys assumed inside
`[0, 24)`; an empty mapping yields the empty list, otherwise the wrap-around
entry at time 24 carrying the first keyframe's angles is appended and the
consecutive pairs are interpolated densely. -/
noncomputable def generateSegmentData (data : List (ℝ × ℝ × ℝ)) :
    List (LightDirection ℝ) :=
  match data with
  | [] => []
  | first :: _ =>
    let dataCopy := data ++ [(24, first.2.1, first.2.2)]
    List.flatten ((dataCopy.zip dataCopy.tail).map fun kk =>
      geometricSpheralLerp ⟨kk.1.1, ⟨kk.1.2.1, kk.1.2.2⟩⟩ ⟨kk.2.1, ⟨kk.2.2.1, kk.2.2.2⟩⟩)

/-- Segment record produced by `generateDemoData`: an id, the dense direction
list and a display color. -/
structure SegmentData where
  id : ℕ
  directions : List (LightDirection ℝ)
  color : ℝ × ℝ × ℝ

/-- Predefined segment colors of `direction-data.ts` lines 14-23. -/
noncomputable def segmentColors : List (ℝ × ℝ × ℝ) :=
  [(1.0, 0.75, 0.15), (0.15, 0.75, 1.0), (1.0, 0.3, 0.4), (0.4, 1.0, 0.4),
   (0.8, 0.4, 1.0), (1.0, 1.0, 0.3), (0.3, 0.6, 1.0), (1.0, 0.5, 0.8)]

/-- Segment loop of `generateDemoData` (`direction-data.ts` lines 120-133):
segments whose generated direction list is empty are skipped without
advancing the color index. -/
noncomputable def generateDemoDataAux :
    List (ℕ × List (ℝ × ℝ × ℝ)) → ℕ → List SegmentData
  | [], _ => []
  | (segmentId, segmentTimeData) :: rest, colorIndex =>
    let directions := generateSegmentData segmentTimeData
    if directions.length > 0 then
      ⟨segmentId, directions, segmentColors.getD (colorIndex % segmentColors.length) (0, 0, 0)⟩ ::
        generateDemoDataAux rest (colorIndex + 1)
    else
      generateDemoDataAux rest colorIndex

/-- Demo-data construction `generateDemoData` of `direction-data.ts` lines
103-136, over an explicit path mapping (segment id, time mapping); ids are
assumed sorted and distinct as produced by the key enumeration. -/
noncomputable def generateDemoData (pathData : List (ℕ × List (ℝ × ℝ × ℝ))) :
    List SegmentData :=
  generateDemoDataAux pathData 0

/-- Initialization guard of the visualization entry points
(`part_001` lines 273-281): throw when no segment survives construction, or
when the cycle duration read from the first segment is not positive. -/
noncomputable def initSegments (pathData : List (ℕ × List (ℝ × ℝ × ℝ))) :
    Except String (List SegmentData) :=
  let segments := generateDemoData pathData
  if segments.length = 0 then Except.error "No segment data found."
  else
    let cycleDuration :=
      ((segments.headD ⟨0, [], (0, 0, 0)⟩).directions.getLastD ⟨0, 0, 0, 0⟩).time
    if cycleDuration ≤ 0 then Except.error "Demo data is empty."
    else Except.ok segments

/-- Two-argument arctangent with the conventions of JS `Math.atan2`
(in particular zero at the origin). -/
noncomputable def atan2 (y x : ℝ) : ℝ :=
  if 0 < x then Real.arctan (y / x)
  else if x < 0 ∧ 0 ≤ y then Real.arctan (y / x) + Real.pi
  else if x < 0 ∧ y < 0 then Real.arctan (y / x) - Real.pi
  else if x = 0 ∧ 0 < y then Real.pi / 2
  else if x = 0 ∧ y < 0 then -(Real.pi / 2)
  else 0

/-- Tube-local cross-section coordinates computed inside `projectToTorus`
(`part_001` lines 135-149): stereographic plane projection, polar conversion,
clamped placement on the tube cross-section. -/
noncomputable def torusTube (direction : Vector3) (minorRadius : ℝ) : ℝ × ℝ :=
  let scale := 1 / (1 + direction.y + 0.01)
  let projX := direction.x * scale
  let projZ := direction.z * scale
  let distance := Real.sqrt (projX * projX + projZ * projZ)
  let angle := atan2 projZ projX
  let radiusOnTube := min distance 1.0 * minorRadius * 0.9
  (radiusOnTube * Real.cos angle, radiusOnTube * Real.sin angle)

/-- Torus projection `projectToTorus` of `part_001` lines 126-161: the cycle
time selects the major angle, the direction selects the tube-local
cross-section position, and the two are combined into one 3-D point. -/
noncomputable def projectToTorus (time : ℝ) (direction : Vector3)
    (majorRadius minorRadius : ℝ) : ℝ × ℝ × ℝ :=
  let majorAngle := time / 24 * Real.pi * 2 - Real.pi / 2
  let tubeX := (torusTube direction minorRadius).1
  let tubeY := (torusTube direction minorRadius).2
  let centerX := majorRadius * Real.cos majorAngle
  let centerZ := majorRadius * Real.sin majorAngle
  (centerX + tubeX * Real.cos majorAngle - tubeY * 0, tubeY,
   centerZ + tubeX * Real.sin majorAngle)

/-- Dot product of two keyframe directions, as computed inline by
`interpolateDirection`. -/
def dotDir (a b : LightDirection ℝ) : ℝ :=
  a.x * b.x + a.y * b.y + a.z * b.z

/-- Unit-length predicate for a keyframe direction. -/
def unitDir (a : LightDirection ℝ) : Prop :=
  a.x ^ 2 + a.y ^ 2 + a.z ^ 2 = 1

/-- Squared Euclidean norm of a vector. -/
def normSqV (v : Vector3) : ℝ :=
  v.x ^ 2 + v.y ^ 2 + v.z ^ 2

/-- Keyframe direction assembled from a vector and a time stamp. -/
def ofVec (v : Vector3) (time : ℝ) : LightDirection ℝ :=
  ⟨v.x, v.y, v.z, time⟩

/-- Clamped interpolation angle, the `theta` computed inside
`interpolateDirection`. -/
noncomputable def thetaOf (a b : LightDirection ℝ) : ℝ :=
  Real.arccos (max (-1) (min 1 (dotDir a b)))

/-- Normalization by the Euclidean length, as the sample loop of
`geometricSpheralLerp` computes it. -/
noncomputable def normalizeV (v : Vector3) : Vector3 :=
  ⟨v.x / Real.sqrt (v.x * v.x + v.y * v.y + v.z * v.z),
   v.y / Real.sqrt (v.x * v.x + v.y * v.y + v.z * v.z),
   v.z / Real.sqrt (v.x * v.x + v.y * v.y + v.z * v.z)⟩

section TrailTheorems

variable {α : Type} [LinearOrderedField α]

/-- Helper: the age-based eviction pass leaves a buffer unchanged when every
point is within the fade window. -/
theorem ageEvict_of_fresh (nowMs trailFadeTime : α) (l : List (TrailPoint α))
    (h : ∀ q ∈ l, nowMs - q.timestamp ≤ trailFadeTime) :
    ageEvict nowMs trailFadeTime l = l := by
  cases l with
  | nil => rfl
  | cons p rest =>
    simp only [ageEvict]
    rw [if_neg (not_lt.mpr (h p (List.mem_cons_self p rest)))]

/-- Helper: the age-based eviction pass only drops a prefix of the buffer. -/
theorem ageEvict_eq_drop (nowMs trailFadeTime : α) (l : List (TrailPoint α)) :
    ∃ k, ageEvict nowMs trailFadeTime l = l.drop k := by
  induction l with
  | nil => exact ⟨0, rfl⟩
  | cons p rest ih =>
    by_cases h : trailFadeTime < nowMs - p.timestamp
    · obtain ⟨k, hk⟩ := ih
      exact ⟨k + 1, by simpa [ageEvict, h] using hk⟩
    · exact ⟨0, by simp [ageEvict, h]⟩

/-- Helper: one trail update only removes points from the head, so the result
is a suffix of the buffer with the new point appended. -/
theorem trailTick_isSuffix (l : List (TrailPoint α)) (position : α × α × α)
    (nowMs trailFadeTime : α) (maxTrailPoints : ℕ) :
    ∃ k, trailTick l position nowMs trailFadeTime maxTrailPoints =
      (l ++ [TrailPoint.mk position nowMs]).drop k := by
  obtain ⟨k, hk⟩ :=
    ageEvict_eq_drop nowMs trailFadeTime (l ++ [TrailPoint.mk position nowMs])
  unfold trailTick evictPass capacityEvict
  rw [hk]
  by_cases h : maxTrailPoints < ((l ++ [TrailPoint.mk position nowMs]).drop k).length
  · rw [if_pos h, ← List.drop_one, List.drop_drop]
    exact ⟨k + 1, rfl⟩
  · rw [if_neg h]
    exact ⟨k, rfl⟩

/-- Helper: pushing a sequence of points one tick at a time, with every pushed
time stamp within the fade window of every buffered point, keeps exactly the
newest points up to the capacity. -/
theorem foldl_trailTick_drop (trailFadeTime : α) (maxTrailPoints : ℕ)
    (hft : 0 ≤ trailFadeTime) :
    ∀ (ps l : List (TrailPoint α)), l.length ≤ maxTrailPoints →
      (∀ p ∈ ps, ∀ q ∈ l ++ ps, p.timestamp - q.timestamp ≤ trailFadeTime) →
      ps.foldl
          (fun acc q => trailTick acc q.position q.timestamp trailFadeTime maxTrailPoints) l =
        (l ++ ps).drop ((l ++ ps).length - maxTrailPoints) := by
  intro ps
  induction ps with
  | nil =>
    intro l hl _
    simp [Nat.sub_eq_zero_of_le hl]
  | cons q ps ih =>
    intro l hl hage
    simp only [List.foldl_cons]
    have hfresh : ageEvict q.timestamp trailFadeTime (l ++ [q]) = l ++ [q] := by
      apply ageEvict_of_fresh
      intro x hx
      rcases List.mem_append.mp hx with hx | hx
      · exact hage q (List.mem_cons_self q ps) x (List.mem_append.mpr (Or.inl hx))
      · have hxq : x = q := by simpa using hx
        subst hxq
        simpa using hft
    have htick : trailTick l q.position q.timestamp trailFadeTime maxTrailPoints =
        (l ++ [q]).drop (l.length + 1 - maxTrailPoints) := by
      unfold trailTick evictPass capacityEvict
      rw [show (⟨q.position, q.timestamp⟩ : TrailPoint α) = q from rfl, hfresh]
      by_cases hc : maxTrailPoints < (l ++ [q]).length
      · rw [if_pos hc]
        have hlq : (l ++ [q]).length = l.length + 1 := by simp
        rw [show l.length + 1 - maxTrailPoints = 1 from by omega, ← List.drop_one]
      · rw [if_neg hc]
        have hlq : ¬ maxTrailPoints < l.length + 1 := by simpa using hc
        rw [show l.length + 1 - maxTrailPoints = 0 from by omega, List.drop_zero]
    rw [htick]
    have hlen2 : ((l ++ [q]).drop (l.length + 1 - maxTrailPoints)).length ≤ maxTrailPoints := by
      simp only [List.length_drop, List.length_append, List.length_cons,
        List.length_nil]
      omega
    have hage2 : ∀ p ∈ ps,
        ∀ x ∈ (l ++ [q]).drop (l.length + 1 - maxTrailPoints) ++ ps,
          p.timestamp - x.timestamp ≤ trailFadeTime := by
      intro p hp x hx
      rcases List.mem_append.mp hx with hx | hx
      · have hx' := List.drop_subset _ _ hx
        rcases List.mem_append.mp hx' with hmem | hmem
        · exact hage p (List.mem_cons_of_mem q hp) x (List.mem_append.mpr (Or.inl hmem))
        · have hxq : x = q := by simpa using hmem
          rw [hxq]
          exact hage p (List.mem_cons_of_mem q hp) q (by simp)
      · exact hage p (List.mem_cons_of_mem q hp) x (by simp [hx])
    rw [ih _ hlen2 hage2]
    have hk1 : l.length + 1 - maxTrailPoints ≤ (l ++ [q]).length := by
      simp only [List.length_append, List.length_cons, List.length_nil]
      omega
    rw [← List.drop_append_of_le_length hk1, List.drop_drop,
      show (l ++ [q]) ++ ps = l ++ q :: ps from by simp]
    congr 1
    simp only [List.length_drop, List.length_append, List.length_cons, List.length_nil]
    omega

/-- C2 (amended): a tick's eviction pass removes points only from the head,
and removes at most one point for the capacity rule; since each tick pushes
exactly one point, pushing `maxPoints + 5` points in sequence (with the
per-tick eviction applied and no age eviction triggered) leaves exactly the
`maxPoints` newest points in their original order. -/
theorem trailBuffer_capacity_newest (trailFadeTime : α) (maxTrailPoints : ℕ)
    (ps : List (TrailPoint α)) (hft : 0 ≤ trailFadeTime)
    (hlen : ps.length = maxTrailPoints + 5)
    (hage : ∀ p ∈ ps, ∀ q ∈ ps, p.timestamp - q.timestamp ≤ trailFadeTime) :
    (∀ (l : List (TrailPoint α)) (position : α × α × α) (nowMs : α), ∃ k,
        trailTick l position nowMs trailFadeTime maxTrailPoints =
          (l ++ [TrailPoint.mk position nowMs]).drop k) ∧
    ps.foldl
        (fun acc q => trailTick acc q.position q.timestamp trailFadeTime maxTrailPoints) [] =
      ps.drop 5 ∧
    (ps.foldl
        (fun acc q => trailTick acc q.position q.timestamp trailFadeTime maxTrailPoints) []).length =
      maxTrailPoints := by
  have hfold := foldl_trailTick_drop trailFadeTime maxTrailPoints hft ps []
    (by simp) (by simpa using hage)
  refine ⟨fun l pos now => trailTick_isSuffix l pos now trailFadeTime maxTrailPoints, ?_, ?_⟩
  · rw [hfold]
    simp [hlen]
  · rw [hfold]
    simp [hlen]

/-- C2 counterexample: on a buffer exceeding the capacity (one) by two, a
single eviction pass removes one head point, leaving the length at two rather
than at the capacity. -/
theorem trailBuffer_capacity_single_shift_counterexample :
    (evictPass (3 : ℚ) 100 1
        [⟨(0, 0, 0), 0⟩, ⟨(0, 0, 0), 1⟩, ⟨(0, 0, 0), 2⟩]).length = 2 ∧ 2 ≠ 1 := by
  refine ⟨?_, by decide⟩
  norm_num [evictPass, ageEvict, capacityEvict]

/-- C2 witness: with capacity two, pushing seven points in sequence leaves
exactly the two newest points in order. -/
theorem trailBuffer_capacity_newest_witness :
    (∀ (l : List (TrailPoint ℚ)) (position : ℚ × ℚ × ℚ) (nowMs : ℚ), ∃ k,
        trailTick l position nowMs 100 2 = (l ++ [TrailPoint.mk position nowMs]).drop k) ∧
    ([⟨(0, 0, 0), 0⟩, ⟨(0, 0, 0), 1⟩, ⟨(0, 0, 0), 2⟩, ⟨(0, 0, 0), 3⟩,
        ⟨(0, 0, 0), 4⟩, ⟨(0, 0, 0), 5⟩, ⟨(0, 0, 0), 6⟩] : List (TrailPoint ℚ)).foldl
        (fun acc q => trailTick acc q.position q.timestamp 100 2) [] =
      ([⟨(0, 0, 0), 0⟩, ⟨(0, 0, 0), 1⟩, ⟨(0, 0, 0), 2⟩, ⟨(0, 0, 0), 3⟩,
        ⟨(0, 0, 0), 4⟩, ⟨(0, 0, 0), 5⟩, ⟨(0, 0, 0), 6⟩] : List (TrailPoint ℚ)).drop 5 ∧
    (([⟨(0, 0, 0), 0⟩, ⟨(0, 0, 0), 1⟩, ⟨(0, 0, 0), 2⟩, ⟨(0, 0, 0), 3⟩,
        ⟨(0, 0, 0), 4⟩, ⟨(0, 0, 0), 5⟩, ⟨(0, 0, 0), 6⟩] : List (TrailPoint ℚ)).foldl
        (fun acc q => trailTick acc q.position q.timestamp 100 2) []).length = 2 :=
  trailBuffer_capacity_newest 100 2 _ (by norm_num) (by simp)
    (by
      intro p hp q hq
      fin_cases hp <;> fin_cases hq <;> norm_num)

/-- C7: on a buffer with non-decreasing time stamps, one age-based eviction
pass keeps exactly the points within the fade window, in their original
order. -/
theorem ageEvict_filter_spec (nowMs trailFadeTime : α) (l : List (TrailPoint α))
    (hmono : l.Pairwise fun a b => a.timestamp ≤ b.timestamp) :
    ageEvict nowMs trailFadeTime l =
      l.filter fun q => decide (nowMs - q.timestamp ≤ trailFadeTime) := by
  induction l with
  | nil => rfl
  | cons p rest ih =>
    obtain ⟨hp, hrest⟩ := List.pairwise_cons.mp hmono
    by_cases h : trailFadeTime < nowMs - p.timestamp
    · simp only [ageEvict, List.filter_cons]
      rw [if_pos h, decide_eq_false (not_le.mpr h)]
      simpa using ih hrest
    · simp only [ageEvict, List.filter_cons]
      rw [if_neg h, decide_eq_true (not_lt.mp h)]
      simp only [if_true]
      refine congrArg (List.cons p) ?_
      refine (List.filter_eq_self.mpr ?_).symm
      intro q hq
      have hle : nowMs - q.timestamp ≤ trailFadeTime := by
        have := hp q hq
        have := not_lt.mp h
        linarith
      exact decide_eq_true hle

/-- C7 witness: with fade window 100, pushing points at times 0, 50, 150, 260
and evicting at 260 keeps exactly the points at most 100 old, here the single
point at 260. -/
theorem ageEvict_filter_spec_witness :
    ageEvict (260 : ℚ) 100
        [⟨(0, 0, 0), 0⟩, ⟨(0, 0, 0), 50⟩, ⟨(0, 0, 0), 150⟩, ⟨(0, 0, 0), 260⟩] =
      ([⟨(0, 0, 0), 0⟩, ⟨(0, 0, 0), 50⟩, ⟨(0, 0, 0), 150⟩,
          ⟨(0, 0, 0), 260⟩] : List (TrailPoint ℚ)).filter
        (fun q => decide ((260 : ℚ) - q.timestamp ≤ 100)) ∧
    ageEvict (260 : ℚ) 100
        [⟨(0, 0, 0), 0⟩, ⟨(0, 0, 0), 50⟩, ⟨(0, 0, 0), 150⟩, ⟨(0, 0, 0), 260⟩] =
      [⟨(0, 0, 0), 260⟩] :=
  ⟨ageEvict_filter_spec 260 100 _ (by norm_num [List.pairwise_cons]),
    by norm_num [ageEvict]⟩

/-- C8: pausing at time p records the elapsed offset, resuming at time r
restores the start time from it, every later tick at time n sees the elapsed
milliseconds (n - r) + (p - s), and the cyclic clock position at the moment of
resume equals the position at the moment of pause. -/
theorem pause_resume_seamless [FloorRing α] (s : ClockState α)
    (p r n animationSpeed cycleDuration : α) (hrun : s.isRunning = true) :
    (pause s p).pauseOffset = p - s.startTime ∧
    (resume (pause s p) r).startTime = r - (p - s.startTime) ∧
    n - (resume (pause s p) r).startTime = (n - r) + (p - s.startTime) ∧
    cycleTimeOf (resume (pause s p) r) r animationSpeed cycleDuration =
      cycleTimeOf s p animationSpeed cycleDuration := by
  have hp : pause s p = ⟨false, p - s.startTime, s.startTime⟩ := by
    simp [pause, hrun]
  have hr : resume (pause s p) r = ⟨true, p - s.startTime, r - (p - s.startTime)⟩ := by
    rw [hp]
    simp [resume]
  refine ⟨by rw [hp], by rw [hr], by rw [hr]; ring, ?_⟩
  rw [hr]
  simp only [cycleTimeOf, elapsedSeconds]
  rw [show r - (r - (p - s.startTime)) = p - s.startTime from by ring]

/-- C8 witness: a concrete pause at 250 and resume at 1000 from start time
100 leave the cyclic position unchanged at the moment of resume. -/
theorem pause_resume_seamless_witness :
    (pause (⟨true, 0, 100⟩ : ClockState ℚ) 250).pauseOffset = 250 - (100 : ℚ) ∧
    (resume (pause (⟨true, 0, 100⟩ : ClockState ℚ) 250) 1000).startTime =
      1000 - (250 - (100 : ℚ)) ∧
    (1234 : ℚ) - (resume (pause (⟨true, 0, 100⟩ : ClockState ℚ) 250) 1000).startTime =
      (1234 - 1000) + (250 - (100 : ℚ)) ∧
    cycleTimeOf (resume (pause (⟨true, 0, 100⟩ : ClockState ℚ) 250) 1000) 1000 10 24 =
      cycleTimeOf (⟨true, 0, 100⟩ : ClockState ℚ) 250 10 24 :=
  pause_resume_seamless ⟨true, 0, 100⟩ 250 1000 1234 10 24 rfl

end TrailTheorems

section BracketTheorems

variable {α : Type} [LinearOrderedField α]

/-- Helper: the record computed by `getCurrentKeyframes`, once the two index
computations are resolved. -/
theorem getCurrentKeyframes_eq_getD (demoData : List (LightDirection α))
    (cycleTime cycleDuration : α) (nextIndex prevIndex : ℕ)
    (hn : (if (demoData.findIdx fun d => decide (cycleTime < d.time)) = demoData.length
        then 0 else demoData.findIdx fun d => decide (cycleTime < d.time)) = nextIndex)
    (hp : (if nextIndex = 0 then demoData.length - 1 else nextIndex - 1) = prevIndex) :
    getCurrentKeyframes demoData cycleTime cycleDuration =
      ⟨demoData.getD prevIndex ⟨0, 0, 0, 0⟩, demoData.getD nextIndex ⟨0, 0, 0, 0⟩,
        codeLocalT (demoData.getD prevIndex ⟨0, 0, 0, 0⟩).time
          (demoData.getD nextIndex ⟨0, 0, 0, 0⟩).time cycleTime cycleDuration⟩ := by
  simp only [getCurrentKeyframes]
  rw [hn, hp]

/-- Helper: the local-parameter computation of the code agrees with the
wrap-adjusted claim formula whenever the previous keyframe does not lie after
the query time on a non-wrapping span. -/
theorem codeLocalT_eq_claimLocalT (prevT nextT cycleTime cycleDuration : α)
    (hple : prevT < nextT → prevT ≤ cycleTime) :
    codeLocalT prevT nextT cycleTime cycleDuration =
      claimLocalT prevT nextT cycleTime cycleDuration := by
  simp only [codeLocalT, claimLocalT, claimSpan, claimAdjusted]
  by_cases hA : prevT < nextT
  · have hB : ¬ nextT - prevT ≤ 0 := by push_neg; linarith
    have hBp : 0 < nextT - prevT := by linarith
    rw [if_neg hB, if_pos hA, if_pos hBp, if_pos (hple hA)]
  · have hB : nextT - prevT ≤ 0 := by
      have := not_lt.mp hA
      linarith
    have hBp : ¬ 0 < nextT - prevT := by linarith
    rw [if_pos hB, if_neg hA, if_neg hBp]

/-- C1 (amended): on a nonempty timeline sorted strictly ascending by time
within the cycle, the bracketing lookup returns keyframes enclosing the query
time under cyclic ordering, and the local parameter equals the wrap-adjusted
numerator divided by the span (zero on a degenerate span); the plain
numerator `t - prev.time` of the original claim applies only when
`t` does not lie below `prev.time` on the wrap segment. -/
theorem getCurrentKeyframes_cyclic_bracket (demoData : List (LightDirection α))
    (cycleTime cycleDuration : α) (hne : demoData ≠ [])
    (hsorted : demoData.Pairwise fun a b => a.time < b.time)
    (hbound : ∀ d ∈ demoData, 0 ≤ d.time ∧ d.time ≤ cycleDuration)
    (hct0 : 0 ≤ cycleTime) (hct1 : cycleTime < cycleDuration) :
    cyclicBetween (getCurrentKeyframes demoData cycleTime cycleDuration).prev.time
        cycleTime (getCurrentKeyframes demoData cycleTime cycleDuration).next.time ∧
    (getCurrentKeyframes demoData cycleTime cycleDuration).t =
      claimLocalT (getCurrentKeyframes demoData cycleTime cycleDuration).prev.time
        (getCurrentKeyframes demoData cycleTime cycleDuration).next.time cycleTime
        cycleDuration := by
  have hlen : 0 < demoData.length := List.length_pos.mpr hne
  suffices hcb : cyclicBetween
      (getCurrentKeyframes demoData cycleTime cycleDuration).prev.time cycleTime
      (getCurrentKeyframes demoData cycleTime cycleDuration).next.time by
    refine ⟨hcb, ?_⟩
    have hgt : (getCurrentKeyframes demoData cycleTime cycleDuration).t =
        codeLocalT (getCurrentKeyframes demoData cycleTime cycleDuration).prev.time
          (getCurrentKeyframes demoData cycleTime cycleDuration).next.time cycleTime
          cycleDuration := rfl
    rw [hgt]
    apply codeLocalT_eq_claimLocalT
    intro hlt
    unfold cyclicBetween at hcb
    rw [if_pos hlt] at hcb
    exact hcb.1
  have hfl : (demoData.getD 0 ⟨0, 0, 0, 0⟩).time ≤
      (demoData.getD (demoData.length - 1) ⟨0, 0, 0, 0⟩).time := by
    rcases Nat.lt_or_ge 1 demoData.length with h2 | h2
    · have hij := List.pairwise_iff_getElem.mp hsorted 0 (demoData.length - 1)
        (by omega) (by omega) (by omega)
      rw [List.getD_eq_getElem _ _ (by omega), List.getD_eq_getElem _ _ (by omega)]
      exact le_of_lt hij
    · have hone : demoData.length - 1 = 0 := by omega
      rw [hone]
  refine (Nat.lt_or_ge (demoData.findIdx fun d => decide (cycleTime < d.time))
      demoData.length).elim (fun hfi => ?_) (fun hfi => ?_)
  · have hnextPred : cycleTime <
        (demoData.getD (demoData.findIdx fun d => decide (cycleTime < d.time))
          ⟨0, 0, 0, 0⟩).time := by
      rw [List.getD_eq_getElem _ _ hfi]
      have hfound := @List.findIdx_getElem _ _ _ hfi
      simpa using hfound
    refine (Nat.eq_zero_or_pos (demoData.findIdx fun d => decide (cycleTime < d.time))).elim
      (fun hz => ?_) (fun hz => ?_)
    · have hrec := getCurrentKeyframes_eq_getD demoData cycleTime cycleDuration 0
        (demoData.length - 1) (by rw [hz]; exact ite_self 0) (by simp)
      rw [hrec]
      have hnext0 : cycleTime < (demoData.getD 0 ⟨0, 0, 0, 0⟩).time := by
        rw [hz] at hnextPred
        exact hnextPred
      unfold cyclicBetween
      split_ifs with hpn
      · exact absurd hpn (not_lt.mpr hfl)
      · exact Or.inr hnext0
    · have hfz : (demoData.findIdx fun d => decide (cycleTime < d.time)) ≠
          demoData.length := Nat.ne_of_lt hfi
      have hrec := getCurrentKeyframes_eq_getD demoData cycleTime cycleDuration
        (demoData.findIdx fun d => decide (cycleTime < d.time))
        ((demoData.findIdx fun d => decide (cycleTime < d.time)) - 1)
        (by rw [if_neg hfz]) (by rw [if_neg (Nat.pos_iff_ne_zero.mp hz)])
      rw [hrec]
      have hprevle :
          (demoData.getD ((demoData.findIdx fun d => decide (cycleTime < d.time)) - 1)
            ⟨0, 0, 0, 0⟩).time ≤ cycleTime := by
        rw [List.getD_eq_getElem _ _ (by omega)]
        have hlt : (demoData.findIdx fun d => decide (cycleTime < d.time)) - 1 <
            demoData.findIdx fun d => decide (cycleTime < d.time) := by omega
        have hbefore := List.not_of_lt_findIdx hlt
        simp only [decide_eq_false_iff_not, not_lt] at hbefore
        exact hbefore
      unfold cyclicBetween
      split_ifs with hpn
      · exact ⟨hprevle, hnextPred⟩
      · exact Or.inl hprevle
  · have hfeq : (demoData.findIdx fun d => decide (cycleTime < d.time)) =
        demoData.length := Nat.le_antisymm (List.findIdx_le_length _) hfi
    have hrec := getCurrentKeyframes_eq_getD demoData cycleTime cycleDuration 0
      (demoData.length - 1) (by rw [if_pos hfeq]) (by simp)
    rw [hrec]
    have hprevle : (demoData.getD (demoData.length - 1) ⟨0, 0, 0, 0⟩).time ≤ cycleTime := by
      rw [List.getD_eq_getElem _ _ (by omega)]
      have hmem := List.getElem_mem
        (show demoData.length - 1 < demoData.length by omega)
      have hpfalse := List.findIdx_eq_length.mp hfeq _ hmem
      simp only [decide_eq_false_iff_not, not_lt] at hpfalse
      exact hpfalse
    unfold cyclicBetween
    split_ifs with hpn
    · exact absurd hpn (not_lt.mpr hfl)
    · exact Or.inl hprevle

/-- C1 counterexample: for the strictly sorted timeline with keyframes at
times 6 and 18 over cycle duration 24, the query time 2 wraps (prev at 18,
next at 6); the code computes the local parameter 2/3 via the wrap-adjusted
numerator, while the claimed plain formula (t - prev.time) / span yields
-4/3. -/
theorem getCurrentKeyframes_plain_localT_counterexample :
    (getCurrentKeyframes [(⟨0, 0, 0, 6⟩ : LightDirection ℚ), ⟨0, 0, 0, 18⟩] 2 24).t = 2 / 3 ∧
    claimLocalTOrig
        (getCurrentKeyframes [(⟨0, 0, 0, 6⟩ : LightDirection ℚ),
            ⟨0, 0, 0, 18⟩] 2 24).prev.time
        (getCurrentKeyframes [(⟨0, 0, 0, 6⟩ : LightDirection ℚ),
            ⟨0, 0, 0, 18⟩] 2 24).next.time 2 24 = -4 / 3 ∧
    ((2 : ℚ) / 3) ≠ -4 / 3 := by
  have h1 : (List.findIdx (fun d => decide ((2 : ℚ) < d.time))
      [(⟨0, 0, 0, 6⟩ : LightDirection ℚ), ⟨0, 0, 0, 18⟩]) = 0 := by
    simp only [List.findIdx_cons, Bool.cond_decide]
    norm_num
  have hrec := getCurrentKeyframes_eq_getD
    [(⟨0, 0, 0, 6⟩ : LightDirection ℚ), ⟨0, 0, 0, 18⟩] 2 24 0 1
    (by rw [h1]; simp) (by simp)
  rw [hrec]
  refine ⟨?_, ?_, by norm_num⟩
  · show codeLocalT (18 : ℚ) 6 2 24 = 2 / 3
    norm_num [codeLocalT]
  · show claimLocalTOrig (18 : ℚ) 6 2 24 = -4 / 3
    norm_num [claimLocalTOrig, claimSpan]

/-- C1 witness: for the timeline with keyframes at 0, 6 and 18 over cycle
duration 24, the query 23.9 brackets with prev at time 18 and next wrapping
to the keyframe at time 0, and the amended bracketing statement applies. -/
theorem getCurrentKeyframes_cyclic_bracket_witness :
    ((getCurrentKeyframes [(⟨0, 0, 0, 0⟩ : LightDirection ℚ), ⟨0, 0, 0, 6⟩,
          ⟨0, 0, 0, 18⟩] (239 / 10) 24).prev.time = 18 ∧
      (getCurrentKeyframes [(⟨0, 0, 0, 0⟩ : LightDirection ℚ), ⟨0, 0, 0, 6⟩,
          ⟨0, 0, 0, 18⟩] (239 / 10) 24).next.time = 0) ∧
    cyclicBetween
        (getCurrentKeyframes [(⟨0, 0, 0, 0⟩ : LightDirection ℚ), ⟨0, 0, 0, 6⟩,
            ⟨0, 0, 0, 18⟩] (239 / 10) 24).prev.time ((239 : ℚ) / 10)
        (getCurrentKeyframes [(⟨0, 0, 0, 0⟩ : LightDirection ℚ), ⟨0, 0, 0, 6⟩,
            ⟨0, 0, 0, 18⟩] (239 / 10) 24).next.time ∧
    (getCurrentKeyframes [(⟨0, 0, 0, 0⟩ : LightDirection ℚ), ⟨0, 0, 0, 6⟩,
        ⟨0, 0, 0, 18⟩] (239 / 10) 24).t =
      claimLocalT
        (getCurrentKeyframes [(⟨0, 0, 0, 0⟩ : LightDirection ℚ), ⟨0, 0, 0, 6⟩,
            ⟨0, 0, 0, 18⟩] (239 / 10) 24).prev.time
        (getCurrentKeyframes [(⟨0, 0, 0, 0⟩ : LightDirection ℚ), ⟨0, 0, 0, 6⟩,
            ⟨0, 0, 0, 18⟩] (239 / 10) 24).next.time ((239 : ℚ) / 10) 24 := by
  have h1 : (List.findIdx (fun d => decide ((239 / 10 : ℚ) < d.time))
      [(⟨0, 0, 0, 0⟩ : LightDirection ℚ), ⟨0, 0, 0, 6⟩, ⟨0, 0, 0, 18⟩]) = 3 := by
    simp only [List.findIdx_cons, Bool.cond_decide, List.findIdx_nil]
    norm_num
  have hrec := getCurrentKeyframes_eq_getD
    [(⟨0, 0, 0, 0⟩ : LightDirection ℚ), ⟨0, 0, 0, 6⟩, ⟨0, 0, 0, 18⟩] (239 / 10) 24 0 2
    (by rw [h1]; simp) (by simp)
  refine ⟨⟨?_, ?_⟩, ?_⟩
  · rw [hrec]
    rfl
  · rw [hrec]
    rfl
  · exact getCurrentKeyframes_cyclic_bracket _ _ _ (by simp)
      (by norm_num [List.pairwise_cons])
      (by intro d hd; fin_cases hd <;> norm_num) (by norm_num) (by norm_num)

end BracketTheorems

/-- C4 (amended): at time 0 the major angle is -(pi / 2), so the tube's
ring-center position is (0, 0, -majorRadius), and for every direction the
projected point is that ring center offset only by the tube-local
cross-section term (placed as (0, tubeY, -tubeX) relative to it). -/
theorem projectToTorus_time_zero (direction : Vector3) :
    projectToTorus 0 direction 1.5 0.6 =
      (0, (torusTube direction 0.6).2, -1.5 - (torusTube direction 0.6).1) := by
  simp only [projectToTorus]
  rw [show (0 : ℝ) / 24 * Real.pi * 2 - Real.pi / 2 = -(Real.pi / 2) from by ring]
  rw [Real.cos_neg, Real.sin_neg, Real.cos_pi_div_two, Real.sin_pi_div_two]
  simp only [Prod.mk.injEq]
  refine ⟨by ring, trivial, by ring⟩

/-- C4 counterexample: at the direction (0, 1, 0) the cross-section term is
zero, and the projected point at time 0 is (0, 0, -1.5), not the claimed
ring-center (1.5, 0, 0). -/
theorem projectToTorus_ring_center_counterexample :
    projectToTorus 0 ⟨0, 1, 0⟩ 1.5 0.6 = (0, 0, -1.5) ∧
    ((0 : ℝ), (0 : ℝ), (-1.5 : ℝ)) ≠ ((1.5 : ℝ), (0 : ℝ), (0 : ℝ)) := by
  constructor
  · have htube : torusTube ⟨0, 1, 0⟩ 0.6 = (0, 0) := by
      simp only [torusTube]
      norm_num [atan2, Real.sqrt_zero]
    simp only [projectToTorus, htube]
    rw [show (0 : ℝ) / 24 * Real.pi * 2 - Real.pi / 2 = -(Real.pi / 2) from by ring]
    rw [Real.cos_neg, Real.sin_neg, Real.cos_pi_div_two, Real.sin_pi_div_two]
    norm_num
  · intro h
    have hx := congrArg Prod.fst h
    norm_num at hx

/-- Helper: every segment id produced by the demo-data loop comes from the
input path mapping. -/
theorem generateDemoDataAux_ids_subset :
    ∀ (pathData : List (ℕ × List (ℝ × ℝ × ℝ))) (colorIndex : ℕ) (i : ℕ),
      i ∈ (generateDemoDataAux pathData colorIndex).map SegmentData.id →
        i ∈ pathData.map Prod.fst := by
  intro pathData
  induction pathData with
  | nil =>
    intro ci i hi
    simp [generateDemoDataAux] at hi
  | cons e rest ih =>
    intro ci i hi
    obtain ⟨eid, edata⟩ := e
    simp only [generateDemoDataAux] at hi
    by_cases hdir : (generateSegmentData edata).length > 0
    · rw [if_pos hdir] at hi
      simp only [List.map_cons, List.mem_cons] at hi
      rcases hi with hi | hi
      · simp [hi]
      · have := ih (ci + 1) i (by simpa using hi)
        simp only [List.map_cons, List.mem_cons]
        exact Or.inr this
    · rw [if_neg hdir] at hi
      have := ih ci i hi
      simp only [List.map_cons, List.mem_cons]
      exact Or.inr this

/-- Helper: a zero-keyframe segment contributes no id to the demo-data loop,
whatever the running color index. -/
theorem generateDemoDataAux_id_dropped :
    ∀ (pathData : List (ℕ × List (ℝ × ℝ × ℝ))) (segmentId colorIndex : ℕ),
      (segmentId, ([] : List (ℝ × ℝ × ℝ))) ∈ pathData →
      pathData.Pairwise (fun e f => e.1 ≠ f.1) →
      segmentId ∉ (generateDemoDataAux pathData colorIndex).map SegmentData.id := by
  intro pathData
  induction pathData with
  | nil =>
    intro sid ci h _
    simp at h
  | cons e rest ih =>
    intro sid ci hmem hpw
    obtain ⟨eid, edata⟩ := e
    obtain ⟨hpw1, hpw2⟩ := List.pairwise_cons.mp hpw
    rcases List.mem_cons.mp hmem with he | he
    · have h1 : sid = eid := congrArg Prod.fst he
      have h2 : ([] : List (ℝ × ℝ × ℝ)) = edata := congrArg Prod.snd he
      subst h1
      subst h2
      have hstep : generateDemoDataAux ((sid, ([] : List (ℝ × ℝ × ℝ))) :: rest) ci =
          generateDemoDataAux rest ci := by
        simp [generateDemoDataAux,
          show generateSegmentData ([] : List (ℝ × ℝ × ℝ)) = [] from rfl]
      rw [hstep]
      intro hcontra
      have hin := generateDemoDataAux_ids_subset rest ci sid hcontra
      obtain ⟨f, hf, hfid⟩ := List.mem_map.mp hin
      exact (hpw1 f hf) hfid.symm
    · simp only [generateDemoDataAux]
      by_cases hdir : (generateSegmentData edata).length > 0
      · rw [if_pos hdir]
        simp only [List.map_cons, List.mem_cons]
        push_neg
        refine ⟨?_, ih sid (ci + 1) he hpw2⟩
        intro hcontra
        exact (hpw1 _ he) (hcontra.symm ▸ rfl)
      · rw [if_neg hdir]
        exact ih sid ci he hpw2

/-- C3 (amended): a segment mapping with zero keyframes does not fail fast;
`generateSegmentData` returns an empty direction list and `generateDemoData`
silently drops the segment; a hard failure surfaces only at the
initialization guard, and only when no segment at all survives construction
(or the cycle duration is not positive). -/
theorem zeroKeyframes_silently_dropped (pathData : List (ℕ × List (ℝ × ℝ × ℝ)))
    (segmentId : ℕ) (hmem : (segmentId, ([] : List (ℝ × ℝ × ℝ))) ∈ pathData)
    (hids : pathData.Pairwise fun e f => e.1 ≠ f.1) :
    segmentId ∉ (generateDemoData pathData).map SegmentData.id ∧
    (generateDemoData pathData = [] →
      initSegments pathData = Except.error "No segment data found.") := by
  constructor
  · exact generateDemoDataAux_id_dropped pathData segmentId 0 hmem hids
  · intro hempty
    simp only [initSegments, hempty]
    rfl

/-- C3 counterexample: constructing segment data from a mapping with zero
keyframes returns the empty list as an ordinary value, and the demo-data
construction silently drops the segment; no error is raised at construction
time. -/
theorem zeroKeyframes_no_error_counterexample :
    generateSegmentData ([] : List (ℝ × ℝ × ℝ)) = [] ∧
    generateDemoData [(0, ([] : List (ℝ × ℝ × ℝ)))] = [] := by
  refine ⟨rfl, ?_⟩
  simp [generateDemoData, generateDemoDataAux,
    show generateSegmentData ([] : List (ℝ × ℝ × ℝ)) = [] from rfl]

/-- C3 witness: the single-segment mapping with zero keyframes is silently
dropped and the surviving-segment guard reports the hard error. -/
theorem zeroKeyframes_silently_dropped_witness :
    (0 : ℕ) ∉ (generateDemoData [(0, ([] : List (ℝ × ℝ × ℝ)))]).map SegmentData.id ∧
    (generateDemoData [(0, ([] : List (ℝ × ℝ × ℝ)))] = [] →
      initSegments [(0, ([] : List (ℝ × ℝ × ℝ)))] =
        Except.error "No segment data found.") :=
  zeroKeyframes_silently_dropped [(0, [])] 0 (by simp) (by simp)

/-- Helper: `interpolateDirection` characterized through the clamped angle
`thetaOf`. -/
theorem interpolateDirection_def (a b : LightDirection ℝ) (t : ℝ) :
    interpolateDirection a b t =
      if thetaOf a b < 0.001 then
        ⟨a.x + (b.x - a.x) * t, a.y + (b.y - a.y) * t, a.z + (b.z - a.z) * t⟩
      else
        ⟨Real.sin ((1 - t) * thetaOf a b) / Real.sin (thetaOf a b) * a.x +
            Real.sin (t * thetaOf a b) / Real.sin (thetaOf a b) * b.x,
         Real.sin ((1 - t) * thetaOf a b) / Real.sin (thetaOf a b) * a.y +
            Real.sin (t * thetaOf a b) / Real.sin (thetaOf a b) * b.y,
         Real.sin ((1 - t) * thetaOf a b) / Real.sin (thetaOf a b) * a.z +
            Real.sin (t * thetaOf a b) / Real.sin (thetaOf a b) * b.z⟩ := rfl

/-- Helper: the dot product of unit directions is at most one. -/
theorem dotDir_le_one (a b : LightDirection ℝ) (ha : unitDir a) (hb : unitDir b) :
    dotDir a b ≤ 1 := by
  have ha1 : a.x ^ 2 + a.y ^ 2 + a.z ^ 2 = 1 := ha
  have hb1 : b.x ^ 2 + b.y ^ 2 + b.z ^ 2 = 1 := hb
  unfold dotDir
  nlinarith [sq_nonneg (a.x - b.x), sq_nonneg (a.y - b.y), sq_nonneg (a.z - b.z)]

/-- Helper: the dot product of unit directions is at least minus one. -/
theorem neg_one_le_dotDir (a b : LightDirection ℝ) (ha : unitDir a) (hb : unitDir b) :
    -1 ≤ dotDir a b := by
  have ha1 : a.x ^ 2 + a.y ^ 2 + a.z ^ 2 = 1 := ha
  have hb1 : b.x ^ 2 + b.y ^ 2 + b.z ^ 2 = 1 := hb
  unfold dotDir
  nlinarith [sq_nonneg (a.x + b.x), sq_nonneg (a.y + b.y), sq_nonneg (a.z + b.z)]

/-- Helper: for unit directions the clamp of the dot product is the
identity. -/
theorem clamp_dotDir (a b : LightDirection ℝ) (ha : unitDir a) (hb : unitDir b) :
    max (-1) (min 1 (dotDir a b)) = dotDir a b := by
  rw [min_eq_right (dotDir_le_one a b ha hb),
    max_eq_right (neg_one_le_dotDir a b ha hb)]

/-- Helper: on the slerp branch with non-antipodal unit endpoints the sine of
the interpolation angle is positive. -/
theorem sin_thetaOf_pos (a b : LightDirection ℝ) (ha : unitDir a) (hb : unitDir b)
    (hd : -1 < dotDir a b) (hθ : ¬ thetaOf a b < 0.001) :
    0 < Real.sin (thetaOf a b) := by
  unfold thetaOf at hθ ⊢
  rw [clamp_dotDir a b ha hb] at hθ ⊢
  apply Real.sin_pos_of_pos_of_lt_pi
  · have h1 : (0.001 : ℝ) ≤ Real.arccos (dotDir a b) := not_lt.mp hθ
    linarith
  · rcases lt_or_eq_of_le (Real.arccos_le_pi (dotDir a b)) with h | h
    · exact h
    · exfalso
      have := Real.arccos_eq_pi.mp h
      linarith

/-- Helper: for unit directions the cosine of the interpolation angle is the
dot product. -/
theorem cos_thetaOf (a b : LightDirection ℝ) (ha : unitDir a) (hb : unitDir b) :
    Real.cos (thetaOf a b) = dotDir a b := by
  unfold thetaOf
  rw [clamp_dotDir a b ha hb]
  exact Real.cos_arccos (neg_one_le_dotDir a b ha hb) (dotDir_le_one a b ha hb)

/-- Helper: the algebraic identity behind unit length of the slerp weights. -/
theorem slerp_weight_identity (A B : ℝ) :
    Real.sin A ^ 2 + 2 * (Real.sin A * Real.sin B) * Real.cos (A + B) +
        Real.sin B ^ 2 = Real.sin (A + B) ^ 2 := by
  have hA := Real.sin_sq_add_cos_sq A
  have hB := Real.sin_sq_add_cos_sq B
  rw [Real.sin_add, Real.cos_add]
  linear_combination (-(Real.sin A ^ 2)) * hB - Real.sin B ^ 2 * hA

/-- Helper: on the slerp branch with non-antipodal unit endpoints the
interpolated vector has unit squared norm, for every parameter. -/
theorem interpolateDirection_slerp_normSq (a b : LightDirection ℝ) (t : ℝ)
    (ha : unitDir a) (hb : unitDir b) (hd : -1 < dotDir a b)
    (hθ : ¬ thetaOf a b < 0.001) :
    normSqV (interpolateDirection a b t) = 1 := by
  have hs := sin_thetaOf_pos a b ha hb hd hθ
  have hcos := cos_thetaOf a b ha hb
  rw [interpolateDirection_def, if_neg hθ]
  unfold normSqV
  dsimp only
  have hexp : (Real.sin ((1 - t) * thetaOf a b) / Real.sin (thetaOf a b) * a.x +
        Real.sin (t * thetaOf a b) / Real.sin (thetaOf a b) * b.x) ^ 2 +
      (Real.sin ((1 - t) * thetaOf a b) / Real.sin (thetaOf a b) * a.y +
        Real.sin (t * thetaOf a b) / Real.sin (thetaOf a b) * b.y) ^ 2 +
      (Real.sin ((1 - t) * thetaOf a b) / Real.sin (thetaOf a b) * a.z +
        Real.sin (t * thetaOf a b) / Real.sin (thetaOf a b) * b.z) ^ 2 =
      (Real.sin ((1 - t) * thetaOf a b) / Real.sin (thetaOf a b)) ^ 2 *
          (a.x ^ 2 + a.y ^ 2 + a.z ^ 2) +
        2 * (Real.sin ((1 - t) * thetaOf a b) / Real.sin (thetaOf a b) *
          (Real.sin (t * thetaOf a b) / Real.sin (thetaOf a b))) *
          (a.x * b.x + a.y * b.y + a.z * b.z) +
        (Real.sin (t * thetaOf a b) / Real.sin (thetaOf a b)) ^ 2 *
          (b.x ^ 2 + b.y ^ 2 + b.z ^ 2) := by ring
  rw [hexp, (ha : a.x ^ 2 + a.y ^ 2 + a.z ^ 2 = 1),
    (hb : b.x ^ 2 + b.y ^ 2 + b.z ^ 2 = 1),
    show a.x * b.x + a.y * b.y + a.z * b.z = dotDir a b from rfl, ← hcos]
  have hs0 : Real.sin (thetaOf a b) ≠ 0 := ne_of_gt hs
  have hid := slerp_weight_identity ((1 - t) * thetaOf a b) (t * thetaOf a b)
  rw [show (1 - t) * thetaOf a b + t * thetaOf a b = thetaOf a b from by ring] at hid
  rw [show (Real.sin ((1 - t) * thetaOf a b) / Real.sin (thetaOf a b)) ^ 2 * 1 +
      2 * (Real.sin ((1 - t) * thetaOf a b) / Real.sin (thetaOf a b) *
        (Real.sin (t * thetaOf a b) / Real.sin (thetaOf a b))) * Real.cos (thetaOf a b) +
      (Real.sin (t * thetaOf a b) / Real.sin (thetaOf a b)) ^ 2 * 1 =
      (Real.sin ((1 - t) * thetaOf a b) ^ 2 +
        2 * (Real.sin ((1 - t) * thetaOf a b) * Real.sin (t * thetaOf a b)) *
          Real.cos (thetaOf a b) +
        Real.sin (t * thetaOf a b) ^ 2) / Real.sin (thetaOf a b) ^ 2 from by ring]
  rw [hid]
  exact div_self (pow_ne_zero 2 hs0)

/-- C6 (amended): for unit, non-antipodal endpoints and parameters in [0, 1],
the slerp branch produces an exactly unit-length vector, and the epsilon
fallback branch keeps the deviation from unit length below 0.01. -/
theorem interpolateDirection_norm (a b : LightDirection ℝ) (t : ℝ)
    (ha : unitDir a) (hb : unitDir b) (hd : -1 < dotDir a b)
    (ht0 : 0 ≤ t) (ht1 : t ≤ 1) :
    (¬ thetaOf a b < 0.001 → normSqV (interpolateDirection a b t) = 1) ∧
    (thetaOf a b < 0.001 →
      |Real.sqrt (normSqV (interpolateDirection a b t)) - 1| < 0.01) := by
  have hd2 := dotDir_le_one a b ha hb
  constructor
  · intro hθ
    exact interpolateDirection_slerp_normSq a b t ha hb hd hθ
  · intro hθ
    rw [interpolateDirection_def, if_pos hθ]
    have hcos := cos_thetaOf a b ha hb
    have hθ0 : 0 ≤ thetaOf a b := by
      unfold thetaOf
      exact Real.arccos_nonneg _
    have hlb : 1 - thetaOf a b ^ 2 / 2 ≤ dotDir a b := by
      rw [← hcos]
      exact Real.one_sub_sq_div_two_le_cos
    have hdlb : 1 - (1 : ℝ) / 1000000 < dotDir a b := by nlinarith
    have hnormSq : normSqV ⟨a.x + (b.x - a.x) * t, a.y + (b.y - a.y) * t,
        a.z + (b.z - a.z) * t⟩ = 1 + 2 * t * (1 - t) * (dotDir a b - 1) := by
      have ha1 : a.x ^ 2 + a.y ^ 2 + a.z ^ 2 = 1 := ha
      have hb1 : b.x ^ 2 + b.y ^ 2 + b.z ^ 2 = 1 := hb
      unfold normSqV dotDir
      dsimp only
      linear_combination (1 - t) ^ 2 * ha1 + t ^ 2 * hb1
    rw [hnormSq]
    have htt : (0 : ℝ) ≤ t * (1 - t) := mul_nonneg ht0 (by linarith)
    have h4 : t * (1 - t) ≤ 1 / 4 := by nlinarith [sq_nonneg (t - 1 / 2)]
    have hub : 1 + 2 * t * (1 - t) * (dotDir a b - 1) ≤ 1 := by nlinarith
    have hlb2 : (0.9801 : ℝ) < 1 + 2 * t * (1 - t) * (dotDir a b - 1) := by nlinarith
    have hsqle : Real.sqrt (1 + 2 * t * (1 - t) * (dotDir a b - 1)) ≤ 1 := by
      have h1 := Real.sqrt_le_sqrt hub
      rwa [Real.sqrt_one] at h1
    have hsqgt : (0.99 : ℝ) < Real.sqrt (1 + 2 * t * (1 - t) * (dotDir a b - 1)) :=
      (Real.lt_sqrt (by norm_num)).mpr (by nlinarith)
    rw [abs_lt]
    constructor
    · linarith
    · linarith

/-- C6 counterexample: at exactly antipodal unit endpoints the angle is pi,
at least the epsilon 0.001, yet the slerp result at the midpoint has squared
norm 0, not 1. -/
theorem interpolateDirection_norm_antipodal_counterexample :
    (0.001 : ℝ) ≤ thetaOf ⟨1, 0, 0, 0⟩ ⟨-1, 0, 0, 0⟩ ∧
    normSqV (interpolateDirection ⟨1, 0, 0, 0⟩ ⟨-1, 0, 0, 0⟩ (1 / 2)) = 0 ∧
    (0 : ℝ) ≠ 1 := by
  have hθ : thetaOf ⟨1, 0, 0, 0⟩ ⟨-1, 0, 0, 0⟩ = Real.pi := by
    unfold thetaOf dotDir
    norm_num [Real.arccos_neg_one]
  refine ⟨by rw [hθ]; linarith [Real.pi_gt_three], ?_, by norm_num⟩
  rw [interpolateDirection_def,
    if_neg (by rw [hθ]; exact not_lt.mpr (by linarith [Real.pi_gt_three]))]
  rw [hθ]
  unfold normSqV
  dsimp only
  rw [Real.sin_pi]
  norm_num

/-- C6 witness: for the orthogonal unit pair along the x and y axes (angle
pi / 2, slerp branch) the midpoint has exactly unit squared norm, and the
fallback clause holds vacuously. -/
theorem interpolateDirection_norm_witness :
    (¬ thetaOf ⟨1, 0, 0, 0⟩ ⟨0, 1, 0, 0⟩ < 0.001 →
      normSqV (interpolateDirection ⟨1, 0, 0, 0⟩ ⟨0, 1, 0, 0⟩ (1 / 2)) = 1) ∧
    (thetaOf ⟨1, 0, 0, 0⟩ ⟨0, 1, 0, 0⟩ < 0.001 →
      |Real.sqrt (normSqV (interpolateDirection ⟨1, 0, 0, 0⟩ ⟨0, 1, 0, 0⟩ (1 / 2))) - 1| <
        0.01) :=
  interpolateDirection_norm ⟨1, 0, 0, 0⟩ ⟨0, 1, 0, 0⟩ (1 / 2) (by norm_num [unitDir])
    (by norm_num [unitDir]) (by norm_num [dotDir]) (by norm_num) (by norm_num)

/-- Helper: the angle-pair conversion always produces a unit vector. -/
theorem rad2Point_normSq (rd : RadDirection) :
    (rad2Point rd).x ^ 2 + (rad2Point rd).y ^ 2 + (rad2Point rd).z ^ 2 = 1 := by
  unfold rad2Point
  dsimp only
  linear_combination (Real.cos rd.vertical ^ 2) * Real.sin_sq_add_cos_sq rd.horizontal +
    Real.sin_sq_add_cos_sq rd.vertical

/-- Helper: with distinct time stamps, the offline sample is the
normalization of the runtime interpolant at the corresponding progress
value. -/
theorem spheralLerpSample_normalizes (start finish : RadPoint) (t : ℝ)
    (hts : ¬ finish.timestamp = start.timestamp) :
    spheralLerpSample start finish t =
      ofVec (normalizeV (interpolateDirection
        (ofVec (rad2Point start.direction) start.timestamp)
        (ofVec (rad2Point finish.direction) finish.timestamp)
        ((t - start.timestamp) / (finish.timestamp - start.timestamp)))) t := by
  simp only [spheralLerpSample, interpolateDirection, normalizeV, ofVec,
    or_iff_left hts]

/-- Helper: the dot product of converted directions with zero vertical angle
is the cosine of the horizontal angle difference from zero. -/
theorem dot_rad2Point_vertical_zero (h τ₁ τ₂ : ℝ) :
    dotDir (ofVec (rad2Point ⟨0, 0⟩) τ₁) (ofVec (rad2Point ⟨0, h⟩) τ₂) =
      Real.cos h := by
  unfold dotDir ofVec rad2Point
  dsimp only
  norm_num

/-- Helper: the interpolation angle between the converted directions with
zero vertical angle is the horizontal angle itself, when inside [0, pi]. -/
theorem thetaOf_rad2Point_vertical_zero (h τ₁ τ₂ : ℝ) (h0 : 0 ≤ h)
    (hπ : h ≤ Real.pi) :
    thetaOf (ofVec (rad2Point ⟨0, 0⟩) τ₁) (ofVec (rad2Point ⟨0, h⟩) τ₂) = h := by
  unfold thetaOf
  rw [dot_rad2Point_vertical_zero h τ₁ τ₂, min_eq_right (Real.cos_le_one h),
    max_eq_right (Real.neg_one_le_cos h)]
  exact Real.arccos_cos h0 hπ

/-- C9 (amended): the offline generator's sample is the normalization of
`interpolateDirection` at the same inputs; on the slerp branch (angle at
least 0.001, endpoints not antipodal) the interpolant is already unit length,
so the two agree exactly there. -/
theorem spheralLerpSample_eq_interpolate_slerp (start finish : RadPoint) (t : ℝ)
    (hts : ¬ finish.timestamp = start.timestamp)
    (hd : -1 < dotDir (ofVec (rad2Point start.direction) start.timestamp)
        (ofVec (rad2Point finish.direction) finish.timestamp))
    (hθ : ¬ thetaOf (ofVec (rad2Point start.direction) start.timestamp)
        (ofVec (rad2Point finish.direction) finish.timestamp) < 0.001) :
    spheralLerpSample start finish t =
      ofVec (interpolateDirection
        (ofVec (rad2Point start.direction) start.timestamp)
        (ofVec (rad2Point finish.direction) finish.timestamp)
        ((t - start.timestamp) / (finish.timestamp - start.timestamp))) t := by
  rw [spheralLerpSample_normalizes start finish t hts]
  have ha : unitDir (ofVec (rad2Point start.direction) start.timestamp) := by
    show (rad2Point start.direction).x ^ 2 + (rad2Point start.direction).y ^ 2 +
        (rad2Point start.direction).z ^ 2 = 1
    exact rad2Point_normSq start.direction
  have hb : unitDir (ofVec (rad2Point finish.direction) finish.timestamp) := by
    show (rad2Point finish.direction).x ^ 2 + (rad2Point finish.direction).y ^ 2 +
        (rad2Point finish.direction).z ^ 2 = 1
    exact rad2Point_normSq finish.direction
  have hsq := interpolateDirection_slerp_normSq
    (ofVec (rad2Point start.direction) start.timestamp)
    (ofVec (rad2Point finish.direction) finish.timestamp)
    ((t - start.timestamp) / (finish.timestamp - start.timestamp)) ha hb hd hθ
  congr 1
  set I := interpolateDirection (ofVec (rad2Point start.direction) start.timestamp)
    (ofVec (rad2Point finish.direction) finish.timestamp)
    ((t - start.timestamp) / (finish.timestamp - start.timestamp)) with hIdef
  have hI : I.x * I.x + I.y * I.y + I.z * I.z = 1 := by
    unfold normSqV at hsq
    linear_combination hsq
  unfold normalizeV
  rw [hI, Real.sqrt_one]
  simp only [div_one]

/-- C9 counterexample: for unit directions separated by the tiny angle
1/2000 (the epsilon-fallback branch) the offline sample is normalized while
`interpolateDirection` is not, and their z components differ at the
midpoint. -/
theorem spheralLerpSample_normalizes_counterexample :
    (spheralLerpSample ⟨0, ⟨0, 0⟩⟩ ⟨1, ⟨0, 1 / 2000⟩⟩ (1 / 2)).z ≠
      (interpolateDirection (ofVec (rad2Point ⟨0, 0⟩) 0)
        (ofVec (rad2Point ⟨0, 1 / 2000⟩) 1) (1 / 2)).z := by
  have hπ := Real.pi_gt_three
  have hs2 : 0 < Real.sin (1 / 4000 : ℝ) :=
    Real.sin_pos_of_pos_of_lt_pi (by norm_num) (by linarith)
  have hcos2 : Real.cos (1 / 2000 : ℝ) = 1 - 2 * Real.sin (1 / 4000 : ℝ) ^ 2 := by
    have h2 := Real.cos_two_mul (1 / 4000 : ℝ)
    have h3 := Real.sin_sq_add_cos_sq (1 / 4000 : ℝ)
    rw [show (1 / 2000 : ℝ) = 2 * (1 / 4000) from by norm_num, h2]
    linear_combination 2 * h3
  have hc1 : Real.cos (1 / 2000 : ℝ) < 1 := by nlinarith
  have hc0 : 0 < Real.cos (1 / 2000 : ℝ) :=
    Real.cos_pos_of_mem_Ioo (Set.mem_Ioo.mpr ⟨by linarith, by linarith⟩)
  have hA : rad2Point ⟨0, 0⟩ = ⟨0, 0, 1⟩ := by
    unfold rad2Point
    norm_num [Vector3.mk.injEq]
  have hB : rad2Point ⟨0, 1 / 2000⟩ =
      ⟨-Real.sin (1 / 2000), 0, Real.cos (1 / 2000)⟩ := by
    unfold rad2Point
    norm_num [Vector3.mk.injEq]
  have hθlt : thetaOf (ofVec (rad2Point ⟨0, 0⟩) 0)
      (ofVec (rad2Point ⟨0, 1 / 2000⟩) 1) < 0.001 := by
    rw [thetaOf_rad2Point_vertical_zero (1 / 2000) 0 1 (by norm_num) (by linarith)]
    norm_num
  have hI : interpolateDirection (ofVec (rad2Point ⟨0, 0⟩) 0)
      (ofVec (rad2Point ⟨0, 1 / 2000⟩) 1) (1 / 2) =
      ⟨0 + (-Real.sin (1 / 2000) - 0) * (1 / 2), 0 + (0 - 0) * (1 / 2),
        1 + (Real.cos (1 / 2000) - 1) * (1 / 2)⟩ := by
    rw [interpolateDirection_def, if_pos hθlt]
    simp only [ofVec, hA, hB]
  rw [spheralLerpSample_normalizes ⟨0, ⟨0, 0⟩⟩ ⟨1, ⟨0, 1 / 2000⟩⟩ (1 / 2)
    (by norm_num)]
  rw [show ((1 : ℝ) / 2 - 0) / (1 - 0) = 1 / 2 from by norm_num]
  rw [hI]
  simp only [ofVec, normalizeV]
  rw [show (0 + (-Real.sin (1 / 2000) - 0) * (1 / 2)) *
        (0 + (-Real.sin (1 / 2000) - 0) * (1 / 2)) +
      ((0 : ℝ) + (0 - 0) * (1 / 2)) * (0 + (0 - 0) * (1 / 2)) +
      (1 + (Real.cos (1 / 2000) - 1) * (1 / 2)) *
        (1 + (Real.cos (1 / 2000) - 1) * (1 / 2)) =
      (1 + Real.cos (1 / 2000)) / 2 from by
    linear_combination (1 / 4 : ℝ) * Real.sin_sq_add_cos_sq (1 / 2000)]
  have hu : 0 < 1 + (Real.cos (1 / 2000) - 1) * (1 / 2) := by nlinarith
  have hvalpos : 0 < (1 + Real.cos (1 / 2000)) / 2 := by nlinarith
  have hval : (1 + Real.cos (1 / 2000)) / 2 < 1 := by nlinarith
  have hL1 : Real.sqrt ((1 + Real.cos (1 / 2000)) / 2) < 1 := by
    have h1 := Real.sqrt_lt_sqrt (le_of_lt hvalpos) hval
    rwa [Real.sqrt_one] at h1
  have hL0 : 0 < Real.sqrt ((1 + Real.cos (1 / 2000)) / 2) :=
    Real.sqrt_pos.mpr hvalpos
  intro hcontra
  rw [div_eq_iff (ne_of_gt hL0)] at hcontra
  nlinarith [hu, hL1, hcontra, mul_lt_mul_of_pos_left hL1 hu]

/-- C9 witness: for the unit directions separated by one radian (slerp
branch) the offline sample equals the runtime interpolant at the midpoint
progress. -/
theorem spheralLerpSample_eq_interpolate_slerp_witness :
    spheralLerpSample ⟨0, ⟨0, 0⟩⟩ ⟨1, ⟨0, 1⟩⟩ (1 / 2) =
      ofVec (interpolateDirection (ofVec (rad2Point ⟨0, 0⟩) 0)
        (ofVec (rad2Point ⟨0, 1⟩) 1) ((1 / 2 - (0 : ℝ)) / ((1 : ℝ) - 0))) (1 / 2) := by
  have hπ := Real.pi_gt_three
  have hc0 : 0 < Real.cos (1 : ℝ) :=
    Real.cos_pos_of_mem_Ioo (Set.mem_Ioo.mpr ⟨by linarith, by linarith⟩)
  exact spheralLerpSample_eq_interpolate_slerp ⟨0, ⟨0, 0⟩⟩ ⟨1, ⟨0, 1⟩⟩ (1 / 2)
    (by norm_num)
    (by rw [dot_rad2Point_vertical_zero 1 0 1]; linarith)
    (by
      rw [thetaOf_rad2Point_vertical_zero 1 0 1 (by norm_num) (by linarith)]
      norm_num)

/-- C10: spherical interpolation is symmetric under reversing its endpoints
and its parameter: the branch condition depends only on the symmetric dot
product and both branches are invariant under the swap. -/
theorem interpolateDirection_reversal_symm (a b : LightDirection ℝ) (t : ℝ) :
    interpolateDirection a b t = interpolateDirection b a (1 - t) := by
  simp only [interpolateDirection]
  rw [show b.x * a.x + b.y * a.y + b.z * a.z = a.x * b.x + a.y * b.y + a.z * b.z from by
    ring]
  split_ifs with h
  · simp only [Vector3.mk.injEq]
    refine ⟨by ring, by ring, by ring⟩
  · rw [show (1 : ℝ) - (1 - t) = t from by ring]
    simp only [Vector3.mk.injEq]
    refine ⟨by ring, by ring, by ring⟩

end LightAngle
